import Mathlib

/-!
Verification development for the OHLCV Excel downloader pipeline
(`src/streamlit_ohlcv_excel.py`).

The embedding models text as `List Char` and pandas data frames as explicit
lists of column names and rows.  Python's `ast.literal_eval` / `json.loads`
are modelled on the textual fragment the program actually consumes: a flat
(`[...]`) list of escape-free string literals (single- or double-quoted for
the strict Python literal parser, double-quoted with no trailing comma for
the JSON parser).  Error messages raised by the source are abstracted to
constructors of `PErr`.  IO (the HTTP fetch, `yf.download`, workbook
serialization and the generated-at timestamp in the filename) is external
to the modelled core: the raw ticker-list text and the bulk response are
parameters of `download_and_write_excel`.
-/

abbrev Str := List Char

/-- Python `str.strip` / `str.isspace` whitespace (common ASCII subset). -/
def pyIsSpace (c : Char) : Bool :=
  (c == ' ') || (c == '\t') || (c == '\n') || (c == '\r') || (c == '\x0b') || (c == '\x0c')

/-- Python `str.strip()`. -/
def pyStrip (s : Str) : Str :=
  ((s.dropWhile pyIsSpace).reverse.dropWhile pyIsSpace).reverse

/-- Python `str.lower()` (ASCII). -/
def pyLower (s : Str) : Str := s.map Char.toLower

/-- Python `str.upper()` (ASCII). -/
def pyUpper (s : Str) : Str := s.map Char.toUpper

/-- Strict lexicographic order on strings by code point, as Python `<` on `str`. -/
def lexLt : Str → Str → Bool
  | [], [] => false
  | [], _ :: _ => true
  | _ :: _, [] => false
  | a :: as, b :: bs =>
    if a.toNat < b.toNat then true
    else if b.toNat < a.toNat then false
    else lexLt as bs

/-- Insert into an ascending list (used to model Python `sorted`). -/
def insertLex (x : Str) : List Str → List Str
  | [] => [x]
  | y :: ys => if lexLt x y then x :: y :: ys else y :: insertLex x ys

/-- Python `sorted` (ascending lexicographic). -/
def sortLex (l : List Str) : List Str := l.foldr insertLex []

/-- The post-processing of `get_egx_tickers`:
`sorted({str(t).upper().strip() for t in lst if str(t).strip()})`
(elements of the modelled fragment are already strings, so `str(t)` is the
identity). -/
def postprocess (lst : List Str) : List Str :=
  sortLex ((lst.filterMap (fun t =>
    if pyStrip t = [] then none else some (pyStrip (pyUpper t)))).dedup)

/-! ### The two parse strategies of `get_egx_tickers` -/

def skipWs (s : Str) : Str := s.dropWhile pyIsSpace

/-- Parse one quoted string literal whose opening quote is drawn from
`quotes`; the content may not contain the opening quote or a backslash
(escape sequences are outside the modelled fragment). Returns the content
and the rest of the input. -/
def parseStrLit (quotes : List Char) : Str → Option (Str × Str)
  | [] => none
  | q :: rest =>
    if q ∈ quotes then
      match rest.dropWhile (fun c => !(c == q) && !(c == '\\')) with
      | c :: rest2 =>
        if c = q then some (rest.takeWhile (fun c => !(c == q) && !(c == '\\')), rest2)
        else none
      | [] => none
    else none

/-- Parse a non-empty comma-separated sequence of string literals followed
by the closing `]`.  `allowTrailing` permits a trailing comma (Python
literals do, JSON does not). -/
def parseItems (quotes : List Char) (allowTrailing : Bool) : Nat → Str → Option (List Str × Str)
  | 0, _ => none
  | fuel + 1, s =>
    match parseStrLit quotes s with
    | none => none
    | some (lit, rest) =>
      match skipWs rest with
      | [] => none
      | c :: rest2 =>
        if c = ']' then some ([lit], rest2)
        else if c = ',' then
          match skipWs rest2 with
          | [] => (parseItems quotes allowTrailing fuel []).map (fun p => (lit :: p.1, p.2))
          | c2 :: rest3 =>
            if c2 = ']' then (if allowTrailing then some ([lit], rest3) else none)
            else (parseItems quotes allowTrailing fuel (c2 :: rest3)).map (fun p => (lit :: p.1, p.2))
        else none

/-- Parse a whole bracketed list of string literals; the entire input must
be consumed (as `ast.literal_eval` / `json.loads` require). -/
def parseListLit (quotes : List Char) (allowTrailing : Bool) (s : Str) : Option (List Str) :=
  match skipWs s with
  | [] => none
  | c :: rest =>
    if c = '[' then
      match skipWs rest with
      | [] => none
      | c2 :: rest2 =>
        if c2 = ']' then (if skipWs rest2 = [] then some [] else none)
        else
          match parseItems quotes allowTrailing (s.length + 1) (c2 :: rest2) with
          | some (items, rest3) => if skipWs rest3 = [] then some items else none
          | none => none
    else none

def pyQuotes : List Char := ['\'', '"']

def jsonQuotes : List Char := ['"']

/-- `ast.literal_eval`, restricted to the flat string-list fragment. -/
def pyLiteralList (s : Str) : Option (List Str) := parseListLit pyQuotes true s

/-- `json.loads`, restricted to the flat string-list fragment. -/
def jsonList (s : Str) : Option (List Str) := parseListLit jsonQuotes false s

/-- `re.search(r"\[.*\]", txt, re.S)`: the greedy span from the first `[`
to the last `]` of the text, if any. -/
def extractSpan (s : Str) : Option Str :=
  match s.dropWhile (fun c => !(c == '[')) with
  | [] => none
  | _ :: rest =>
    match rest.reverse.dropWhile (fun c => !(c == ']')) with
    | [] => none
    | c :: t => some ('[' :: (c :: t).reverse)

/-- `.replace("'", '"')` on the extracted span. -/
def replaceQuotes (s : Str) : Str := s.map (fun c => if c = '\'' then '"' else c)

/-- The failure modes of the modelled pipeline.
`parseError` is `RuntimeError("Ticker list parsing failed or returned empty.")`;
`jsonError` is the `json.JSONDecodeError` escaping from the un-guarded
`json.loads` call of the fallback strategy;
`pipelineError` is `RuntimeError("No tickers to download after mapping.")`. -/
inductive PErr where
  | parseError
  | jsonError
  | pipelineError
  deriving DecidableEq, Repr

/-- `get_egx_tickers` on the already-fetched raw text: strict literal parse
of the stripped text, falling back (only when the strict parse raises) to
JSON-parsing the first-to-last bracketed span with single quotes replaced
by double quotes; raises when the resulting list is empty. -/
def get_egx_tickers (raw : Str) : Except PErr (List Str) :=
  let txt := pyStrip raw
  match pyLiteralList txt with
  | some lst => if lst = [] then .error .parseError else .ok (postprocess lst)
  | none =>
    match extractSpan txt with
    | none => .error .parseError
    | some sp =>
      match jsonList (replaceQuotes sp) with
      | none => .error .jsonError
      | some lst => if lst = [] then .error .parseError else .ok (postprocess lst)

/-! ### Symbol mapper and sheet names -/

/-- `to_yf_symbol` with the module-level `YF_SUFFIX` made an explicit first
argument: `f"{t}{YF_SUFFIX}" if (YF_SUFFIX and not t.endswith(YF_SUFFIX)) else t`. -/
def to_yf_symbol_with (suffix t : Str) : Str :=
  if (!suffix.isEmpty) && !(suffix.isSuffixOf t) then t ++ suffix else t

/-- `YF_SUFFIX = ""` as configured in the source. -/
def YF_SUFFIX : Str := []

/-- `to_yf_symbol` exactly as in the source (reads the global suffix). -/
def to_yf_symbol (t : Str) : Str := to_yf_symbol_with YF_SUFFIX t

/-- `sanitize_sheet_name`: replace `: \ / ? * [ ]` by `_`, truncate to 31. -/
def sanitize_sheet_name (name : Str) : Str :=
  (name.map (fun c => if c ∈ [':', '\\', '/', '?', '*', '[', ']'] then '_' else c)).take 31

/-! ### Data frames -/

/-- A single-level-column pandas frame: the index name, the column names,
and one `(index value, cells)` entry per row.  A missing value (`NaN` /
`pd.NA`) is `none`. -/
structure PFrame (α : Type) where
  indexName : Str
  colNames : List Str
  rows : List (α × List (Option α))
  deriving DecidableEq, Repr

/-- A frame after `reset_index`: plain positional rows. -/
structure NFrame (α : Type) where
  colNames : List Str
  rows : List (List (Option α))
  deriving DecidableEq, Repr

/-- A two-level-column pandas frame (`pd.MultiIndex` columns), as produced
by a multi-symbol `yf.download`: column labels are `(level0, level1)` pairs. -/
structure MFrame (α : Type) where
  indexName : Str
  colPairs : List (Str × Str)
  rows : List (α × List (Option α))
  deriving DecidableEq, Repr

/-- The bulk response shape: flat columns or a two-level column index. -/
inductive BulkDF (α : Type) where
  | flat (f : PFrame α)
  | multi (m : MFrame α)
  deriving DecidableEq, Repr

/-- pandas `DataFrame.empty`: true when any axis has length zero. -/
def PFrame.isEmpty {α : Type} (f : PFrame α) : Bool :=
  f.rows.isEmpty || f.colNames.isEmpty

/-- pandas `DataFrame.empty` for a two-level frame. -/
def MFrame.isEmpty {α : Type} (m : MFrame α) : Bool :=
  m.rows.isEmpty || m.colPairs.isEmpty

def BulkDF.isEmpty {α : Type} : BulkDF α → Bool
  | .flat f => f.isEmpty
  | .multi m => m.isEmpty

/-- First index of a column label (pandas label-based lookup, first match). -/
def idxOf? (c : Str) : List Str → Option Nat
  | [] => none
  | n :: ns => if n = c then some 0 else (idxOf? c ns).map (· + 1)

/-- The cell of a row under column label `c`; `none` both for a missing
column and for a stored `NaN`. -/
def cellAt {α : Type} (names : List Str) (cells : List (Option α)) (c : Str) : Option α :=
  match idxOf? c names with
  | some i => (cells[i]?).join
  | none => none

/-- `df[ticker]` on a two-level frame whose level-0 labels contain `ticker`:
keep the matching columns, with their level-1 labels as the new flat names. -/
def projLevel0 {α : Type} (m : MFrame α) (t : Str) : PFrame α :=
  ⟨m.indexName, (m.colPairs.filter (fun p => p.1 == t)).map Prod.snd,
   m.rows.map (fun r =>
     (r.1, ((m.colPairs.zip r.2).filter (fun pc => pc.1.1 == t)).map Prod.snd))⟩

/-- `df.xs(ticker, axis=1, level=1)`: the cross-section over level-1 labels,
with the level-0 labels as the new flat names. -/
def projLevel1 {α : Type} (m : MFrame α) (t : Str) : PFrame α :=
  ⟨m.indexName, (m.colPairs.filter (fun p => p.2 == t)).map Prod.fst,
   m.rows.map (fun r =>
     (r.1, ((m.colPairs.zip r.2).filter (fun pc => pc.1.2 == t)).map Prod.snd))⟩

/-- `_slice_ticker_from_download`. -/
def _slice_ticker_from_download {α : Type} : Option (BulkDF α) → Str → Option (PFrame α)
  | none, _ => none
  | some d, t =>
    if d.isEmpty then none
    else
      match d with
      | .flat f => some f
      | .multi m =>
        if t ∈ m.colPairs.map Prod.fst then some (projLevel0 m t)
        else if t ∈ m.colPairs.map Prod.snd then some (projLevel1 m t)
        else none

/-! ### Normalizer -/

def sDate : Str := "Date".data
def sDateLower : Str := "date".data
def sOpen : Str := "Open".data
def sHigh : Str := "High".data
def sLow : Str := "Low".data
def sClose : Str := "Close".data
def sAdjClose : Str := "Adj Close".data
def sVolume : Str := "Volume".data

/-- `COLS = ["Date", "Open", "High", "Low", "Close", "Adj Close", "Volume"]`. -/
def COLS : List Str := [sDate, sOpen, sHigh, sLow, sClose, sAdjClose, sVolume]

/-- The candidate value columns of `normalize_ohlcv`'s `keep` list. -/
def keepCandidates : List Str := [sOpen, sHigh, sLow, sClose, sAdjClose, sVolume]

/-- Step 1: `if "Adj Close" not in cols and "Close" in cols: df["Adj Close"] = df["Close"]`. -/
def addAdjClose {α : Type} (df : PFrame α) : PFrame α :=
  if sAdjClose ∉ df.colNames ∧ sClose ∈ df.colNames then
    ⟨df.indexName, df.colNames ++ [sAdjClose],
     df.rows.map (fun r => (r.1, r.2 ++ [cellAt df.colNames r.2 sClose]))⟩
  else df

/-- `keep = [c for c in [...] if c in df.columns]`. -/
def keepOf {α : Type} (df : PFrame α) : List Str :=
  keepCandidates.filter (fun c => decide (c ∈ df.colNames))

/-- `df[keep]`: select (and reorder) columns by label. -/
def selectCols {α : Type} (keep : List Str) (df : PFrame α) : PFrame α :=
  ⟨df.indexName, keep,
   df.rows.map (fun r => (r.1, keep.map (cellAt df.colNames r.2)))⟩

/-- `df.dropna(how="any")`: keep only rows with every cell present. -/
def dropnaRows {α : Type} (df : PFrame α) : PFrame α :=
  ⟨df.indexName, df.colNames, df.rows.filter (fun r => r.2.all Option.isSome)⟩

/-- `df.reset_index()`: the index becomes the first column. -/
def reset_index {α : Type} (df : PFrame α) : NFrame α :=
  ⟨df.indexName :: df.colNames, df.rows.map (fun r => some r.1 :: r.2)⟩

/-- `if df.columns[0].lower() != "date": df = df.rename(columns={df.columns[0]: "Date"})`
(pandas `rename` relabels every column bearing that name). -/
def renameFirstToDate {α : Type} (nf : NFrame α) : NFrame α :=
  match nf.colNames with
  | [] => nf
  | c0 :: rest =>
    if pyLower c0 = sDateLower then nf
    else ⟨(c0 :: rest).map (fun c => if c = c0 then sDate else c), nf.rows⟩

/-- One step of the column-completion loop: `if col not in df.columns:
df[col] = pd.NA` (a new all-null column appended on the right). -/
def addColIfMissing {α : Type} (f : NFrame α) (c : Str) : NFrame α :=
  if c ∈ f.colNames then f
  else ⟨f.colNames ++ [c], f.rows.map (fun cs => cs ++ [none])⟩

/-- `for col in COLS: if col not in df.columns: df[col] = pd.NA`. -/
def addMissingCols {α : Type} (nf : NFrame α) : NFrame α :=
  COLS.foldl addColIfMissing nf

/-- `df[COLS]` after `reset_index`. -/
def selectColsN {α : Type} (cols : List Str) (nf : NFrame α) : NFrame α :=
  ⟨cols, nf.rows.map (fun cs => cols.map (cellAt nf.colNames cs))⟩

/-- Comparison of optional sort keys; pandas puts `NaN` keys last. -/
def optLe {α : Type} (le : α → α → Bool) : Option α → Option α → Bool
  | some a, some b => le a b
  | some _, none => true
  | none, none => true
  | none, some _ => false

/-- Stable ascending insertion used to model `sort_values`. -/
def insertRow {α : Type} (le : α → α → Bool) (key : List (Option α) → Option α)
    (r : List (Option α)) : List (List (Option α)) → List (List (Option α))
  | [] => [r]
  | s :: ss => if optLe le (key s) (key r) then s :: insertRow le key r ss else r :: s :: ss

/-- `if "Date" in df.columns: df = df.sort_values("Date").reset_index(drop=True)`. -/
def sortByDate {α : Type} (le : α → α → Bool) (nf : NFrame α) : NFrame α :=
  if sDate ∈ nf.colNames then
    ⟨nf.colNames,
     nf.rows.foldl (fun acc r => insertRow le (fun cs => cellAt nf.colNames cs sDate) r acc) []⟩
  else nf

/-- `normalize_ohlcv`, parameterized by the order `le` on the (opaque) cell
type used by `sort_values("Date")`. -/
def normalize_ohlcv {α : Type} (le : α → α → Bool) (df : PFrame α) : NFrame α :=
  let f1 := addAdjClose df
  let f2 := dropnaRows (selectCols (keepOf f1) f1)
  let n1 := renameFirstToDate (reset_index f2)
  sortByDate le (selectColsN COLS (addMissingCols n1))

/-! ### Orchestrator -/

def sNoData : Str := "No data".data
def sEmptyNorm : Str := "Empty after normalization".data

/-- One row of the SUMMARY sheet. -/
structure SummaryRow (α : Type) where
  original_ticker : Str
  yf_symbol : Str
  nrows : Nat
  first_date : Option α
  last_date : Option α
  note : Str
  deriving DecidableEq, Repr

/-- The modelled return value of `download_and_write_excel` (the workbook
bytes and timestamped filename are external serialization of `sheets`). -/
structure RunResult (α : Type) where
  sheets : List (Str × NFrame α)
  summary : List (SummaryRow α)
  skipped : List Str
  deriving DecidableEq, Repr

/-- The body of the per-ticker loop of `download_and_write_excel`:
slice, test for no data, normalize, test for emptiness, and produce the
(optional) sheet, the summary row and the (optional) skip-list entry. -/
def processPair {α : Type} (data : Option (BulkDF α)) (le : α → α → Bool)
    (p : Str × Str) : Option (Str × NFrame α) × SummaryRow α × Option Str :=
  match _slice_ticker_from_download data p.2 with
  | none => (none, ⟨p.1, p.2, 0, none, none, sNoData⟩, some p.2)
  | some df_t =>
    if df_t.isEmpty then (none, ⟨p.1, p.2, 0, none, none, sNoData⟩, some p.2)
    else
      let df_norm := normalize_ohlcv le df_t
      if df_norm.rows.isEmpty then
        (none, ⟨p.1, p.2, 0, none, none, sEmptyNorm⟩, some p.2)
      else
        (some (sanitize_sheet_name p.1, df_norm),
         ⟨p.1, p.2, df_norm.rows.length,
          df_norm.rows.head?.bind (fun r => cellAt df_norm.colNames r sDate),
          df_norm.rows.getLast?.bind (fun r => cellAt df_norm.colNames r sDate),
          []⟩,
         none)

/-- The accumulating loop over `(original ticker, yf symbol)` pairs. -/
def runLoop {α : Type} (data : Option (BulkDF α)) (le : α → α → Bool)
    (pairs : List (Str × Str)) (acc : RunResult α) : RunResult α :=
  pairs.foldl (fun acc p =>
    let r := processPair data le p
    ⟨acc.sheets ++ r.1.toList, acc.summary ++ [r.2.1], acc.skipped ++ r.2.2.toList⟩) acc

/-- `download_and_write_excel` on the modelled core: the raw ticker-list
text stands for the fetched page, `data` for the result of the single
`yf.download` call. -/
def download_and_write_excel {α : Type} (rawText : Str) (data : Option (BulkDF α))
    (le : α → α → Bool) : Except PErr (RunResult α) :=
  match get_egx_tickers rawText with
  | .error e => .error e
  | .ok original_tickers =>
    let pairs := original_tickers.map (fun o => (o, to_yf_symbol o))
    if pairs.map Prod.snd = [] then .error .pipelineError
    else .ok (runLoop data le pairs ⟨[], [], []⟩)

/-- The per-ticker outcome classification described by the spec, read off
from the loop's branch conditions. -/
inductive Outcome where
  | success
  | noData
  | emptyAfterNorm
  deriving DecidableEq, Repr

def classify {α : Type} (data : Option (BulkDF α)) (le : α → α → Bool)
    (ysym : Str) : Outcome :=
  match _slice_ticker_from_download data ysym with
  | none => .noData
  | some df_t =>
    if df_t.isEmpty then .noData
    else if (normalize_ohlcv le df_t).rows.isEmpty then .emptyAfterNorm
    else .success

/-- The `note` of a summary row, per outcome. -/
def noteOf : Outcome → Str
  | .success => []
  | .noData => sNoData
  | .emptyAfterNorm => sEmptyNorm

/-! ### Spec-side characterizations and concrete inputs used by the claims -/

/-- The condition "both parse strategies yield nothing or yield an empty
collection" of the spec, spelled over the modelled strategies (the fallback
is consulted only when the strict parse failed, as in the source; a span
that is not valid JSON is not "empty" — it is a distinct failure). -/
def bothStrategiesEmpty (raw : Str) : Bool :=
  let txt := pyStrip raw
  match pyLiteralList txt with
  | some lst => lst.isEmpty
  | none =>
    match extractSpan txt with
    | none => true
    | some sp =>
      match jsonList (replaceQuotes sp) with
      | some lst => lst.isEmpty
      | none => false

/-- A single-quote character. -/
def sQuote : Char := '\''

def leInt : Int → Int → Bool := fun a b => decide (a ≤ b)

def leRat : ℚ → ℚ → Bool := fun a b => decide (a ≤ b)

/-- A one-row series missing the Volume column entirely (counterexample
input for the no-null-field claim). -/
def exC1 : PFrame Int :=
  ⟨sDate, [sOpen, sHigh, sLow, sClose], [(1, [some 10, some 11, some 9, some 10])]⟩

/-- A series containing one fully populated date row and one row with a
missing value in the Low column (the example of the no-null-field claim). -/
def exLow : PFrame Int :=
  ⟨sDate, [sOpen, sHigh, sLow, sClose, sVolume],
   [(1, [some 10, some 11, some 9, some 10, some 5]),
    (2, [some 10, some 11, none, some 10, some 5])]⟩

/-- The example series of the AdjustedClose-synthesis claim:
`{Date: D, Open:10, High:11, Low:9, Close:10.5, Volume:1000}` with `D = 0`. -/
def exC7 : PFrame ℚ :=
  ⟨sDate, [sOpen, sHigh, sLow, sClose, sVolume],
   [((0 : ℚ), [some 10, some 11, some 9, some (21/2), some 1000])]⟩

/-- A flat frame with one row and zero columns: pandas reports it as
`empty` although it has rows. -/
def fDeg : PFrame Int := ⟨sDate, [], [(0, [])]⟩

/-- A non-degenerate flat frame. -/
def fW : PFrame Int := ⟨sDate, [sClose], [(0, [some 1])]⟩

/-- A two-level frame whose level-1 labels (field-major ordering) hold the
symbol. -/
def mW : MFrame Int := ⟨sDate, [(sAdjClose, "AAA".data)], [(0, [some 1])]⟩

/-- Loose single-quoted text on which only the fallback strategy succeeds. -/
def rawC8 : Str := ("xx [".data ++ [sQuote]) ++ ("AA".data ++ [sQuote] ++ "] yy".data)

/-- The bracketed span the fallback extracts from `rawC8`. -/
def spC8 : Str := ("[".data ++ [sQuote]) ++ ("AA".data ++ [sQuote] ++ "]".data)

/-- Ticker-list text for the end-to-end run witnesses. -/
def rawW : Str := "[\"AAA\",\"BBB\"]".data

/-- The tickers parsed from `rawW`. -/
def tickersW : List Str := ["AAA".data, "BBB".data]

/-- The result of the modelled pipeline on `rawW` with an absent bulk
response: both tickers are classified NoData and skipped. -/
def resW : RunResult Int :=
  ⟨[],
   [⟨"AAA".data, "AAA".data, 0, none, none, sNoData⟩,
    ⟨"BBB".data, "BBB".data, 0, none, none, sNoData⟩],
   ["AAA".data, "BBB".data]⟩

/-! ### Helper lemmas -/

theorem dropWhile_head_false {p : Char → Bool} :
    ∀ (l : List Char) (c : Char) (t : List Char), l.dropWhile p = c :: t → p c = false := by
  intro l
  induction l with
  | nil => intro c t h; cases h
  | cons a l ih =>
    intro c t h
    by_cases ha : p a = true
    · rw [List.dropWhile_cons_of_pos ha] at h; exact ih c t h
    · rw [List.dropWhile_cons_of_neg ha] at h
      cases h
      exact Bool.eq_false_iff.mpr ha

theorem lexLt_trans : ∀ (a b c : Str), lexLt a b = true → lexLt b c = true → lexLt a c = true := by
  intro a
  induction a with
  | nil =>
    intro b c hab hbc
    cases b with
    | nil => simp [lexLt] at hab
    | cons y ys =>
      cases c with
      | nil => simp [lexLt] at hbc
      | cons z zs => simp [lexLt]
  | cons x xs ih =>
    intro b c hab hbc
    cases b with
    | nil => simp [lexLt] at hab
    | cons y ys =>
      cases c with
      | nil => simp [lexLt] at hbc
      | cons z zs =>
        simp only [lexLt] at hab hbc ⊢
        rcases Nat.lt_trichotomy x.toNat y.toNat with h1 | h1 | h1
        · rcases Nat.lt_trichotomy y.toNat z.toNat with h2 | h2 | h2
          · simp [Nat.lt_trans h1 h2]
          · rw [h2] at h1; simp [h1]
          · rw [if_neg (Nat.lt_asymm h2), if_pos h2] at hbc; cases hbc
        · rcases Nat.lt_trichotomy y.toNat z.toNat with h2 | h2 | h2
          · rw [h1]; simp [h2]
          · rw [if_neg (by omega), if_neg (by omega)] at hab
            rw [if_neg (by omega), if_neg (by omega)] at hbc
            rw [if_neg (by omega), if_neg (by omega)]
            exact ih ys zs hab hbc
          · rw [if_neg (Nat.lt_asymm h2), if_pos h2] at hbc; cases hbc
        · rw [if_neg (Nat.lt_asymm h1), if_pos h1] at hab; cases hab

theorem lexLt_connex : ∀ (a b : Str), lexLt a b = false → a ≠ b → lexLt b a = true := by
  intro a
  induction a with
  | nil =>
    intro b hab hne
    cases b with
    | nil => exact absurd rfl hne
    | cons y ys => simp [lexLt] at hab
  | cons x xs ih =>
    intro b hab hne
    cases b with
    | nil => simp [lexLt]
    | cons y ys =>
      simp only [lexLt] at hab ⊢
      rcases Nat.lt_trichotomy x.toNat y.toNat with h1 | h1 | h1
      · rw [if_pos h1] at hab; cases hab
      · have hxy : x = y := Char.eq_of_val_eq (by
          apply UInt32.eq_of_val_eq
          exact Fin.eq_of_val_eq h1)
        subst hxy
        rw [if_neg (Nat.lt_irrefl _), if_neg (Nat.lt_irrefl _)] at hab ⊢
        exact ih ys hab (fun h => hne (h ▸ rfl))
      · simp [h1]

theorem insertLex_perm (x : Str) (l : List Str) : (insertLex x l).Perm (x :: l) := by
  induction l with
  | nil => exact List.Perm.refl _
  | cons y ys ih =>
    by_cases h : lexLt x y = true
    · simp [insertLex, h]
    · simp only [insertLex, if_neg h]
      exact List.Perm.trans (List.Perm.cons y ih) (List.Perm.swap x y ys)

theorem sortLex_perm (l : List Str) : (sortLex l).Perm l := by
  induction l with
  | nil => exact List.Perm.refl _
  | cons a as ih =>
    have : sortLex (a :: as) = insertLex a (sortLex as) := rfl
    rw [this]
    exact List.Perm.trans (insertLex_perm a (sortLex as)) (List.Perm.cons a ih)

theorem pairwise_insertLex (x : Str) (l : List Str)
    (hl : l.Pairwise (fun a b => lexLt a b = true)) (hx : ∀ y ∈ l, x ≠ y) :
    (insertLex x l).Pairwise (fun a b => lexLt a b = true) := by
  induction l with
  | nil => simp [insertLex]
  | cons y ys ih =>
    rcases List.pairwise_cons.mp hl with ⟨hy, hys⟩
    by_cases h : lexLt x y = true
    · simp only [insertLex, if_pos h]
      refine List.pairwise_cons.mpr ⟨?_, hl⟩
      intro z hz
      rcases List.mem_cons.mp hz with rfl | hz
      · exact h
      · exact lexLt_trans x y z h (hy z hz)
    · have hxy : x ≠ y := hx y (List.mem_cons_self y ys)
      have hyx : lexLt y x = true := lexLt_connex x y (Bool.not_eq_true _ ▸ Bool.eq_false_iff.mpr h) hxy
      simp only [insertLex, if_neg h]
      refine List.pairwise_cons.mpr ⟨?_, ih hys (fun z hz => hx z (List.mem_cons_of_mem _ hz))⟩
      intro z hz
      rcases List.mem_cons.mp ((insertLex_perm x ys).mem_iff.mp hz) with rfl | hz
      · exact hyx
      · exact hy z hz

theorem pairwise_sortLex (l : List Str) (h : l.Nodup) :
    (sortLex l).Pairwise (fun a b => lexLt a b = true) := by
  induction l with
  | nil => simp [sortLex]
  | cons a as ih =>
    have hnd := List.nodup_cons.mp h
    have : sortLex (a :: as) = insertLex a (sortLex as) := rfl
    rw [this]
    apply pairwise_insertLex _ _ (ih hnd.2)
    intro y hy
    have hmem : y ∈ as := (sortLex_perm as).mem_iff.mp hy
    exact fun he => hnd.1 (he ▸ hmem)

theorem parseStrLit_json_to_py (s : Str) (r : Str × Str)
    (h : parseStrLit jsonQuotes s = some r) : parseStrLit pyQuotes s = some r := by
  cases s with
  | nil => simp [parseStrLit] at h
  | cons q rest =>
    simp only [parseStrLit] at h ⊢
    by_cases hq : q ∈ jsonQuotes
    · have hq2 : q = '"' := by simpa [jsonQuotes] using hq
      have hq3 : q ∈ pyQuotes := by rw [hq2]; simp [pyQuotes]
      rw [if_pos hq] at h
      rw [if_pos hq3]
      exact h
    · rw [if_neg hq] at h; cases h

theorem parseItems_json_to_py : ∀ (fuel : Nat) (s : Str) (r : List Str × Str),
    parseItems jsonQuotes false fuel s = some r → parseItems pyQuotes true fuel s = some r := by
  intro fuel
  induction fuel with
  | zero => intro s r h; simp [parseItems] at h
  | succ n ih =>
    intro s r h
    simp only [parseItems] at h ⊢
    cases hs : parseStrLit jsonQuotes s with
    | none => rw [hs] at h; cases h
    | some lr =>
      obtain ⟨lit, rest⟩ := lr
      rw [parseStrLit_json_to_py s (lit, rest) hs]
      simp only [hs] at h
      cases hw : skipWs rest with
      | nil => simp only [hw] at h; cases h
      | cons c rest2 =>
        simp only [hw] at h ⊢
        by_cases hc : c = ']'
        · rw [if_pos hc] at h ⊢; exact h
        · rw [if_neg hc] at h ⊢
          by_cases hc2 : c = ','
          · rw [if_pos hc2] at h ⊢
            cases hw2 : skipWs rest2 with
            | nil =>
              simp only [hw2] at h ⊢
              cases hrec : parseItems jsonQuotes false n [] with
              | none => rw [hrec] at h; cases h
              | some p => rw [hrec] at h; rw [ih [] p hrec]; exact h
            | cons c2 rest3 =>
              simp only [hw2] at h ⊢
              by_cases hc3 : c2 = ']'
              · rw [if_pos hc3] at h; simp at h
              · rw [if_neg hc3] at h ⊢
                cases hrec : parseItems jsonQuotes false n (c2 :: rest3) with
                | none => rw [hrec] at h; cases h
                | some p => rw [hrec] at h; rw [ih (c2 :: rest3) p hrec]; exact h
          · rw [if_neg hc2] at h; cases h

theorem parseListLit_json_to_py (s : Str) (l : List Str)
    (h : parseListLit jsonQuotes false s = some l) : parseListLit pyQuotes true s = some l := by
  simp only [parseListLit] at h ⊢
  cases hw : skipWs s with
  | nil => simp only [hw] at h; cases h
  | cons c rest =>
    simp only [hw] at h ⊢
    by_cases hc : c = '['
    · rw [if_pos hc] at h ⊢
      cases hw2 : skipWs rest with
      | nil => simp only [hw2] at h; cases h
      | cons c2 rest2 =>
        simp only [hw2] at h ⊢
        by_cases hc2 : c2 = ']'
        · rw [if_pos hc2] at h ⊢; exact h
        · rw [if_neg hc2] at h ⊢
          cases hp : parseItems jsonQuotes false (s.length + 1) (c2 :: rest2) with
          | none => rw [hp] at h; cases h
          | some pr =>
            obtain ⟨items, rest3⟩ := pr
            rw [parseItems_json_to_py _ _ _ hp]
            simp only [hp] at h
            exact h
    · rw [if_neg hc] at h; cases h

theorem extractSpan_shape (s sp : Str) (h : extractSpan s = some sp) :
    ∃ mid : Str, sp = '[' :: mid ++ [']'] := by
  simp only [extractSpan] at h
  cases h1 : s.dropWhile (fun c => !(c == '[')) with
  | nil => rw [h1] at h; cases h
  | cons a rest =>
    simp only [h1] at h
    cases h2 : rest.reverse.dropWhile (fun c => !(c == ']')) with
    | nil => rw [h2] at h; cases h
    | cons c t =>
      simp only [h2] at h
      have hc : (!(c == ']')) = false := dropWhile_head_false _ c t h2
      have hc2 : c = ']' := by simpa using hc
      subst hc2
      cases h
      exact ⟨t.reverse, by simp⟩

theorem pyStrip_bracket (mid : Str) : pyStrip ('[' :: mid ++ [']']) = '[' :: mid ++ [']'] := by
  rw [List.cons_append]
  unfold pyStrip
  rw [List.dropWhile_cons_of_neg (by decide)]
  have h1 : ('[' :: (mid ++ [']'])).reverse = ']' :: (mid.reverse ++ ['[']) := by
    simp
  rw [h1, List.dropWhile_cons_of_neg (by decide), ← h1, List.reverse_reverse]

theorem replaceQuotes_bracket (mid : Str) :
    replaceQuotes ('[' :: mid ++ [']']) = '[' :: replaceQuotes mid ++ [']'] := by
  simp [replaceQuotes]

/-- Claim C8: on inputs where the strict structured-literal parse fails but
the loose single-quoted fallback succeeds, `get_egx_tickers` returns exactly
what it returns on the equivalent double-quoted text (the quote-normalized
span), on which the strict path itself succeeds with the same elements. -/
theorem fallback_refines_strict (raw sp : Str) (l : List Str)
    (h1 : pyLiteralList (pyStrip raw) = none)
    (h2 : extractSpan (pyStrip raw) = some sp)
    (h3 : jsonList (replaceQuotes sp) = some l) :
    get_egx_tickers raw = get_egx_tickers (replaceQuotes sp) ∧
    pyLiteralList (pyStrip (replaceQuotes sp)) = some l := by
  have hpy : pyLiteralList (replaceQuotes sp) = some l := parseListLit_json_to_py _ _ h3
  obtain ⟨mid, rfl⟩ := extractSpan_shape _ _ h2
  have hfix : pyStrip (replaceQuotes ('[' :: mid ++ [']'])) =
      replaceQuotes ('[' :: mid ++ [']']) := by
    rw [replaceQuotes_bracket]
    exact pyStrip_bracket _
  refine ⟨?_, by rw [hfix]; exact hpy⟩
  simp only [get_egx_tickers, h1, h2, h3, hfix, hpy]

/-- Witness for C8 at the loose text `xx ['AA'] yy`. -/
theorem fallback_refines_strict_witness :
    get_egx_tickers rawC8 = get_egx_tickers (replaceQuotes spC8) ∧
    pyLiteralList (pyStrip (replaceQuotes spC8)) = some ["AA".data] :=
  fallback_refines_strict rawC8 spC8 ["AA".data] rfl rfl rfl

/-- Claim C9: the symbol mapper is a pure total function: it returns the
ticker unchanged when the suffix is empty or already present, appends the
suffix otherwise, and is idempotent for every ticker and suffix. -/
theorem to_yf_symbol_pure_total_idempotent (t s : Str) :
    (s = [] ∨ s.isSuffixOf t = true → to_yf_symbol_with s t = t) ∧
    (s ≠ [] → s.isSuffixOf t = false → to_yf_symbol_with s t = t ++ s) ∧
    to_yf_symbol_with s (to_yf_symbol_with s t) = to_yf_symbol_with s t := by
  refine ⟨?_, ?_, ?_⟩
  · rintro (rfl | hsuf)
    · simp [to_yf_symbol_with]
    · simp [to_yf_symbol_with, hsuf]
  · intro h1 h2
    cases s with
    | nil => exact absurd rfl h1
    | cons a as => simp [to_yf_symbol_with, h2, List.isEmpty]
  · cases s with
    | nil => simp [to_yf_symbol_with]
    | cons a as =>
      by_cases hsuf : (a :: as).isSuffixOf t = true
      · simp [to_yf_symbol_with, hsuf]
      · have hsuf2 : (a :: as).isSuffixOf (t ++ (a :: as)) = true :=
          List.isSuffixOf_iff_suffix.mpr (List.suffix_append t (a :: as))
        simp [to_yf_symbol_with, hsuf, hsuf2, List.isEmpty]

/-- Witness for C9 with suffix `.CA` and ticker `ABC`. -/
theorem to_yf_symbol_pure_total_idempotent_witness :
    to_yf_symbol_with (".CA".data) ("ABC".data) = "ABC".data ++ ".CA".data ∧
    to_yf_symbol_with (".CA".data) (to_yf_symbol_with (".CA".data) ("ABC".data)) =
      to_yf_symbol_with (".CA".data) ("ABC".data) :=
  ⟨(to_yf_symbol_pure_total_idempotent ("ABC".data) (".CA".data)).2.1 (by decide) (by decide),
   (to_yf_symbol_pure_total_idempotent ("ABC".data) (".CA".data)).2.2⟩

/-- Claim C10: on a non-empty flat (single-level-column) bulk response the
slicer returns the whole table for every requested symbol, even one that
appears nowhere in the response; the result does not depend on the symbol. -/
theorem flat_slice_ignores_symbol {α : Type} (f : PFrame α) (t : Str)
    (h1 : f.rows ≠ []) (h2 : f.colNames ≠ []) :
    _slice_ticker_from_download (some (BulkDF.flat f)) t = some f := by
  have he : (BulkDF.flat f).isEmpty = false := by
    simp [BulkDF.isEmpty, PFrame.isEmpty, h1, h2]
  simp [_slice_ticker_from_download, he]

/-- Witness for C10: the symbol `ZZZ` occurs nowhere in `fW`. -/
theorem flat_slice_ignores_symbol_witness :
    _slice_ticker_from_download (some (BulkDF.flat fW)) ("ZZZ".data) = some fW :=
  flat_slice_ignores_symbol fW ("ZZZ".data) (by decide) (by decide)

/-- Counterexample to claim C6 as stated: a flat response with one row and
zero columns has rows, so by the claimed policy the whole table would be
returned, but pandas `DataFrame.empty` is also true when there are zero
columns, and the code returns `None`. -/
theorem slice_flat_zero_columns_cex :
    fDeg.rows ≠ [] ∧
    _slice_ticker_from_download (some (BulkDF.flat fDeg)) ("AAA".data) = none :=
  ⟨by decide, rfl⟩

/-- Claim C6 (amended: "absent or has zero rows" becomes "absent or empty,
i.e. zero rows or zero columns"): the slicer applies its policy in order
and never raises — `None` for an absent or empty response, the whole table
for a flat response, the level-0 projection when the symbol is a top-level
group, else the level-1 cross-section when it is a second-level field, else
`None`. -/
theorem slice_policy_cases {α : Type} (d : Option (BulkDF α)) (t : Str) :
    (d = none → _slice_ticker_from_download d t = none) ∧
    (∀ b, d = some b → b.isEmpty = true → _slice_ticker_from_download d t = none) ∧
    (∀ f, d = some (BulkDF.flat f) → (BulkDF.flat f).isEmpty = false →
      _slice_ticker_from_download d t = some f) ∧
    (∀ m, d = some (BulkDF.multi m) → (BulkDF.multi m).isEmpty = false →
      t ∈ m.colPairs.map Prod.fst →
      _slice_ticker_from_download d t = some (projLevel0 m t)) ∧
    (∀ m, d = some (BulkDF.multi m) → (BulkDF.multi m).isEmpty = false →
      t ∉ m.colPairs.map Prod.fst → t ∈ m.colPairs.map Prod.snd →
      _slice_ticker_from_download d t = some (projLevel1 m t)) ∧
    (∀ m, d = some (BulkDF.multi m) → t ∉ m.colPairs.map Prod.fst →
      t ∉ m.colPairs.map Prod.snd → _slice_ticker_from_download d t = none) := by
  refine ⟨?_, ?_, ?_, ?_, ?_, ?_⟩
  · rintro rfl; rfl
  · rintro b rfl hb; simp [_slice_ticker_from_download, hb]
  · rintro f rfl hf; simp [_slice_ticker_from_download, hf]
  · rintro m rfl hm ht; simp [_slice_ticker_from_download, hm, ht]
  · rintro m rfl hm ht0 ht1; simp [_slice_ticker_from_download, hm, ht0, ht1]
  · rintro m rfl ht0 ht1
    by_cases hm : (BulkDF.multi m).isEmpty = true
    · simp [_slice_ticker_from_download, hm]
    · simp at hm
      simp [_slice_ticker_from_download, hm, ht0, ht1]

/-- Witness for C6 (amended), exercising the level-1 cross-section branch. -/
theorem slice_policy_cases_witness :
    _slice_ticker_from_download (some (BulkDF.multi mW)) ("AAA".data) =
      some (projLevel1 mW ("AAA".data)) :=
  (slice_policy_cases (some (BulkDF.multi mW)) ("AAA".data)).2.2.2.2.1 mW rfl
    (by decide) (by decide) (by decide)

/-- Counterexample to claim C3 as stated: on `see [note] end` both
strategies yield nothing usable, yet the failure is the JSON decode error
escaping from the un-guarded fallback `json.loads`, not the ParseError. -/
theorem ticker_parse_json_error_cex :
    get_egx_tickers ("see [note] end".data) = .error .jsonError ∧
    PErr.jsonError ≠ PErr.parseError :=
  ⟨rfl, by decide⟩

/-- Claim C3 (amended: when the extracted span is not valid JSON after
quote normalization the function fails with a JSON decode error instead):
`get_egx_tickers` fails with the ParseError exactly when the consulted
strategies yield nothing or an empty collection; in particular it does so
on empty text, on text with no bracketed span, and on an empty list. -/
theorem ticker_parse_error_characterization :
    (∀ raw : Str, get_egx_tickers raw = .error .parseError ↔ bothStrategiesEmpty raw = true) ∧
    get_egx_tickers [] = .error .parseError ∧
    get_egx_tickers ("no brackets here".data) = .error .parseError ∧
    get_egx_tickers ("[]".data) = .error .parseError := by
  refine ⟨fun raw => ?_, rfl, rfl, rfl⟩
  simp only [get_egx_tickers, bothStrategiesEmpty]
  cases hp : pyLiteralList (pyStrip raw) with
  | some lst =>
    by_cases hl : lst = [] <;> simp [hp, hl, List.isEmpty_iff]
  | none =>
    cases hs : extractSpan (pyStrip raw) with
    | none => simp [hp, hs]
    | some sp =>
      cases hj : jsonList (replaceQuotes sp) with
      | none => simp [hp, hs, hj]
      | some lst => by_cases hl : lst = [] <;> simp [hp, hs, hj, hl, List.isEmpty_iff]

/-- Counterexample to claim C4 as stated: `[]` is a well-formed strict
array literal (the strict parse succeeds with the empty element list), but
`get_egx_tickers` raises the ParseError instead of returning the empty
processed list. -/
theorem strict_empty_literal_cex :
    pyLiteralList (pyStrip ("[]".data)) = some [] ∧
    get_egx_tickers ("[]".data) = .error .parseError ∧
    (Except.error PErr.parseError : Except PErr (List Str)) ≠ .ok (postprocess []) :=
  ⟨rfl, rfl, fun h => by cases h⟩

/-- Claim C4 (amended: restricted to well-formed strict array literals with
a non-empty element list): `get_egx_tickers` returns exactly the elements
trimmed, uppercased, with empties dropped, deduplicated, and sorted in
strictly ascending lexicographic order. -/
theorem strict_parse_postprocess (raw : Str) (l : List Str)
    (hp : pyLiteralList (pyStrip raw) = some l) (hne : l ≠ []) :
    get_egx_tickers raw = .ok (postprocess l) ∧
    (postprocess l).Pairwise (fun a b => lexLt a b = true) := by
  constructor
  · simp only [get_egx_tickers, hp]
    simp [hne]
  · exact pairwise_sortLex _ (List.nodup_dedup _)

/-- Witness for C4 (amended) on `[" b", "A", "b "]`: trimming, uppercasing,
deduplication and sorting produce `["A", "B"]`. -/
theorem strict_parse_postprocess_witness :
    get_egx_tickers ("[\" b\", \"A\", \"b \"]".data) =
      .ok (postprocess [" b".data, "A".data, "b ".data]) ∧
    (postprocess [" b".data, "A".data, "b ".data]).Pairwise (fun a b => lexLt a b = true) :=
  strict_parse_postprocess ("[\" b\", \"A\", \"b \"]".data) [" b".data, "A".data, "b ".data]
    rfl (by decide)

theorem idxOf?_lt : ∀ (l : List Str) (c : Str) (j : Nat), idxOf? c l = some j → j < l.length := by
  intro l
  induction l with
  | nil => intro c j h; cases h
  | cons n ns ih =>
    intro c j h
    simp only [idxOf?] at h
    by_cases he : n = c
    · rw [if_pos he] at h; cases h; simp
    · rw [if_neg he] at h
      cases hrec : idxOf? c ns with
      | none => rw [hrec] at h; cases h
      | some j0 =>
        rw [hrec] at h
        cases h
        simpa using ih c j0 hrec

theorem idxOf?_get : ∀ (l : List Str) (c : Str), c ∈ l →
    ∃ j, idxOf? c l = some j ∧ l[j]? = some c := by
  intro l
  induction l with
  | nil => intro c h; cases h
  | cons n ns ih =>
    intro c h
    by_cases he : n = c
    · exact ⟨0, by simp [idxOf?, he], by simp [he]⟩
    · have hm : c ∈ ns := by
        rcases List.mem_cons.mp h with rfl | hm
        · exact absurd rfl he
        · exact hm
      obtain ⟨j, hj, hg⟩ := ih c hm
      exact ⟨j + 1, by simp [idxOf?, he, hj], by simpa using hg⟩

theorem idxOf?_append_left : ∀ (l m : List Str) (c : Str) (j : Nat),
    idxOf? c l = some j → idxOf? c (l ++ m) = some j := by
  intro l
  induction l with
  | nil => intro m c j h; cases h
  | cons n ns ih =>
    intro m c j h
    rw [List.cons_append]
    simp only [idxOf?] at h ⊢
    by_cases he : n = c
    · rw [if_pos he] at h ⊢; exact h
    · rw [if_neg he] at h ⊢
      cases hrec : idxOf? c ns with
      | none => rw [hrec] at h; cases h
      | some j0 => rw [hrec] at h; rw [ih m c j0 hrec]; exact h

theorem idxOf?_append_self : ∀ (l : List Str) (c : Str), c ∉ l →
    idxOf? c (l ++ [c]) = some l.length := by
  intro l
  induction l with
  | nil => intro c _; simp [idxOf?]
  | cons n ns ih =>
    intro c h
    have hne : n ≠ c := fun he => h (he ▸ List.mem_cons_self n ns)
    have hns : c ∉ ns := fun hm => h (List.mem_cons_of_mem n hm)
    rw [List.cons_append]
    simp only [idxOf?, if_neg hne, ih c hns, List.length_cons]
    rfl

theorem cellAt_cons_self {α : Type} (c : Str) (names : List Str) (x : Option α)
    (cells : List (Option α)) : cellAt (c :: names) (x :: cells) c = x := by
  simp [cellAt, idxOf?]

theorem cellAt_cons_ne {α : Type} (c h0 : Str) (names : List Str) (x : Option α)
    (cells : List (Option α)) (hne : c ≠ h0) :
    cellAt (h0 :: names) (x :: cells) c = cellAt names cells c := by
  unfold cellAt
  simp only [idxOf?, if_neg (fun he => hne (Eq.symm he))]
  cases hidx : idxOf? c names with
  | none => simp [hidx]
  | some j => simp [hidx]

theorem cellAt_append_of_mem {α : Type} (names ns : List Str) (cells xs : List (Option α))
    (c : Str) (hm : c ∈ names) (hlen : cells.length = names.length) :
    cellAt (names ++ ns) (cells ++ xs) c = cellAt names cells c := by
  obtain ⟨j, hj, _⟩ := idxOf?_get names c hm
  have hjl : j < cells.length := hlen ▸ idxOf?_lt names c j hj
  unfold cellAt
  rw [idxOf?_append_left names ns c j hj, hj]
  dsimp only
  rw [List.getElem?_append_left hjl]

theorem cellAt_append_self {α : Type} (names : List Str) (cells : List (Option α))
    (c : Str) (x : Option α) (hn : c ∉ names) (hlen : cells.length = names.length) :
    cellAt (names ++ [c]) (cells ++ [x]) c = x := by
  unfold cellAt
  rw [idxOf?_append_self names c hn]
  dsimp only
  rw [← hlen, List.getElem?_concat_length]
  rfl

theorem cellAt_map_self {α : Type} (keep : List Str) (f : Str → Option α) (c : Str)
    (hm : c ∈ keep) : cellAt keep (keep.map f) c = f c := by
  obtain ⟨j, hj, hg⟩ := idxOf?_get keep c hm
  unfold cellAt
  rw [hj]
  dsimp only
  rw [List.getElem?_map, hg]
  rfl

theorem addAdjClose_indexName {α : Type} (df : PFrame α) :
    (addAdjClose df).indexName = df.indexName := by
  unfold addAdjClose; split <;> rfl

theorem n1_structure {α : Type} (df : PFrame α)
    (h1 : pyLower df.indexName = sDateLower → df.indexName = sDate)
    (h2 : df.indexName ∉ keepCandidates) (f2 : PFrame α)
    (hidx : f2.indexName = df.indexName)
    (hcols : f2.colNames = keepOf (addAdjClose df)) :
    (renameFirstToDate (reset_index f2)).colNames = sDate :: keepOf (addAdjClose df) ∧
    (renameFirstToDate (reset_index f2)).rows =
      f2.rows.map (fun rf => some rf.1 :: rf.2) := by
  unfold reset_index renameFirstToDate
  dsimp only
  rw [hidx, hcols]
  by_cases hcase : pyLower df.indexName = sDateLower
  · have he : df.indexName = sDate := h1 hcase
    rw [he, if_pos (by decide : pyLower sDate = sDateLower)]
    exact ⟨rfl, rfl⟩
  · rw [if_neg hcase]
    refine ⟨?_, rfl⟩
    dsimp only
    rw [List.map_cons, if_pos rfl]
    congr 1
    have hall : ∀ c ∈ keepOf (addAdjClose df),
        (if c = df.indexName then sDate else c) = c := by
      intro c hc
      have hcand : c ∈ keepCandidates := (List.mem_filter.mp hc).1
      exact if_neg (fun he => h2 (by rw [← he]; exact hcand))
    calc (keepOf (addAdjClose df)).map (fun c => if c = df.indexName then sDate else c)
        = (keepOf (addAdjClose df)).map id := List.map_congr_left hall
      _ = keepOf (addAdjClose df) := List.map_id _

theorem foldl_addCol_structure {α : Type} :
    ∀ (cols : List Str) (nf : NFrame α),
      ∃ extra : List Str,
        (cols.foldl addColIfMissing nf).colNames = nf.colNames ++ extra ∧
        (cols.foldl addColIfMissing nf).rows =
          nf.rows.map (fun cs => cs ++ List.replicate extra.length (none : Option α)) := by
  intro cols
  induction cols with
  | nil =>
    intro nf
    refine ⟨[], by simp, ?_⟩
    simp
  | cons c cols ih =>
    intro nf
    rw [List.foldl_cons]
    by_cases hc : c ∈ nf.colNames
    · obtain ⟨extra, hn, hr⟩ := ih nf
      simp only [addColIfMissing, if_pos hc]
      exact ⟨extra, hn, hr⟩
    · obtain ⟨extra, hn, hr⟩ :=
        ih ⟨nf.colNames ++ [c], nf.rows.map (fun cs => cs ++ [(none : Option α)])⟩
      refine ⟨c :: extra, ?_, ?_⟩
      · simp only [addColIfMissing, if_neg hc]
        rw [hn]
        simp [List.append_assoc]
      · simp only [addColIfMissing, if_neg hc]
        rw [hr]
        dsimp only
        rw [List.map_map]
        refine List.map_congr_left (fun cs _ => ?_)
        dsimp only [Function.comp]
        rw [List.append_assoc]
        rfl

theorem mem_insertRow {α : Type} (le : α → α → Bool) (key : List (Option α) → Option α)
    (r : List (Option α)) :
    ∀ (l : List (List (Option α))) (x), x ∈ insertRow le key r l → x = r ∨ x ∈ l := by
  intro l
  induction l with
  | nil =>
    intro x hx
    simp only [insertRow] at hx
    exact Or.inl (List.mem_singleton.mp hx)
  | cons s ss ih =>
    intro x hx
    by_cases h : optLe le (key s) (key r) = true
    · simp only [insertRow, if_pos h] at hx
      rcases List.mem_cons.mp hx with rfl | hx
      · exact Or.inr (List.mem_cons_self _ _)
      · rcases ih x hx with h1 | h1
        · exact Or.inl h1
        · exact Or.inr (List.mem_cons_of_mem _ h1)
    · simp only [insertRow, if_neg h] at hx
      rcases List.mem_cons.mp hx with rfl | hx
      · exact Or.inl rfl
      · exact Or.inr hx

theorem mem_sortFold {α : Type} (le : α → α → Bool) (key : List (Option α) → Option α) :
    ∀ (l : List (List (Option α))) (acc : List (List (Option α))) (x),
      x ∈ l.foldl (fun a r => insertRow le key r a) acc → x ∈ acc ∨ x ∈ l := by
  intro l
  induction l with
  | nil => intro acc x hx; exact Or.inl hx
  | cons r rs ih =>
    intro acc x hx
    rw [List.foldl_cons] at hx
    rcases ih _ x hx with hacc | hl
    · rcases mem_insertRow le key r acc x hacc with rfl | h
      · exact Or.inr (List.mem_cons_self _ _)
      · exact Or.inl h
    · exact Or.inr (List.mem_cons_of_mem _ hl)

theorem sortByDate_rows_subset {α : Type} (le : α → α → Bool) (nf : NFrame α) :
    ∀ r ∈ (sortByDate le nf).rows, r ∈ nf.rows := by
  intro r hr
  unfold sortByDate at hr
  by_cases h : sDate ∈ nf.colNames
  · rw [if_pos h] at hr
    dsimp only at hr
    rcases mem_sortFold le _ nf.rows [] r hr with h0 | h1
    · exact absurd h0 (List.not_mem_nil r)
    · exact h1
  · rw [if_neg h] at hr; exact hr

theorem normalize_row_structure {α : Type} (le : α → α → Bool) (df : PFrame α)
    (h1 : pyLower df.indexName = sDateLower → df.indexName = sDate)
    (h2 : df.indexName ∉ keepCandidates) :
    ∀ r ∈ (normalize_ohlcv le df).rows,
      ∃ r1 ∈ (addAdjClose df).rows,
        ((keepOf (addAdjClose df)).map (cellAt (addAdjClose df).colNames r1.2)).all
          Option.isSome = true ∧
        cellAt COLS r sDate = some r1.1 ∧
        ∀ c ∈ keepOf (addAdjClose df),
          cellAt COLS r c = cellAt (addAdjClose df).colNames r1.2 c := by
  intro r hr
  have hf2idx : (dropnaRows (selectCols (keepOf (addAdjClose df)) (addAdjClose df))).indexName
      = df.indexName := by
    simp only [dropnaRows, selectCols]
    exact addAdjClose_indexName df
  have hf2cols : (dropnaRows (selectCols (keepOf (addAdjClose df)) (addAdjClose df))).colNames
      = keepOf (addAdjClose df) := rfl
  obtain ⟨hn1c, hn1r⟩ := n1_structure df h1 h2 _ hf2idx hf2cols
  obtain ⟨extra, hn2c, hn2r⟩ :=
    foldl_addCol_structure COLS (renameFirstToDate (reset_index
      (dropnaRows (selectCols (keepOf (addAdjClose df)) (addAdjClose df)))))
  have hr3 : r ∈ (selectColsN COLS (addMissingCols (renameFirstToDate (reset_index
      (dropnaRows (selectCols (keepOf (addAdjClose df)) (addAdjClose df))))))).rows :=
    sortByDate_rows_subset le _ r hr
  simp only [selectColsN, addMissingCols] at hr3
  obtain ⟨cs2, hcs2mem, hcs2⟩ := List.mem_map.mp hr3
  rw [hn2r] at hcs2mem
  obtain ⟨cs1, hcs1mem, hcs1⟩ := List.mem_map.mp hcs2mem
  rw [hn1r] at hcs1mem
  obtain ⟨rf, hrfmem, hrf⟩ := List.mem_map.mp hcs1mem
  have hfilt : rf ∈ (selectCols (keepOf (addAdjClose df)) (addAdjClose df)).rows.filter
      (fun r => r.2.all Option.isSome) := hrfmem
  have hall2 : rf.2.all Option.isSome = true := (List.mem_filter.mp hfilt).2
  have hmemsel : rf ∈ (selectCols (keepOf (addAdjClose df)) (addAdjClose df)).rows :=
    (List.mem_filter.mp hfilt).1
  simp only [selectCols] at hmemsel
  obtain ⟨r1, hr1mem, hr1⟩ := List.mem_map.mp hmemsel
  have hcells : rf.2 = (keepOf (addAdjClose df)).map (cellAt (addAdjClose df).colNames r1.2) := by
    rw [← hr1]
  have hfst : rf.1 = r1.1 := by rw [← hr1]
  have hnames : (COLS.foldl addColIfMissing (renameFirstToDate (reset_index (dropnaRows
      (selectCols (keepOf (addAdjClose df)) (addAdjClose df)))))).colNames
      = sDate :: (keepOf (addAdjClose df) ++ extra) := by
    rw [hn2c, hn1c, List.cons_append]
  have hcs1' : cs1 ++ List.replicate extra.length (none : Option α) = cs2 := hcs1
  have hrf' : (some rf.1 :: rf.2 : List (Option α)) = cs1 := hrf
  have hcs2eq : cs2 = (some rf.1 :: rf.2) ++ List.replicate extra.length none := by
    rw [← hcs1', ← hrf']
  have hlen : rf.2.length = (keepOf (addAdjClose df)).length := by
    rw [hcells, List.length_map]
  subst hcs2
  refine ⟨r1, hr1mem, ?_, ?_, ?_⟩
  · rw [← hcells]
    exact hall2
  · rw [cellAt_map_self COLS _ sDate (by decide), hnames, hcs2eq, List.cons_append,
        cellAt_cons_self, hfst]
  · intro c hc
    have hcCand : c ∈ keepCandidates := (List.mem_filter.mp hc).1
    have hcCOLS : c ∈ COLS := by
      have hsub : ∀ x ∈ keepCandidates, x ∈ COLS := by decide
      exact hsub c hcCand
    have hcne : c ≠ sDate := by
      intro he
      have hnd : sDate ∉ keepCandidates := by decide
      exact hnd (he ▸ hcCand)
    rw [cellAt_map_self COLS _ c hcCOLS, hnames, hcs2eq, List.cons_append,
        cellAt_cons_ne c sDate _ _ _ hcne,
        cellAt_append_of_mem _ extra _ _ c hc hlen, hcells,
        cellAt_map_self _ _ c hc]

/-- Counterexample to claim C1 as stated: a one-row series with all present
fields populated but no Volume column at all is normalized to a row whose
Volume field is the null placeholder, so a row with a null field is
emitted. -/
theorem normalize_null_field_cex :
    (normalize_ohlcv leInt exC1).rows =
      [[some 1, some 10, some 11, some 9, some 10, some 10, none]] ∧
    ((normalize_ohlcv leInt exC1).rows.all (fun r => r.all Option.isSome)) = false :=
  ⟨rfl, rfl⟩

/-- Claim C1 (amended: null placeholders do appear, but only in canonical
columns entirely absent from the input series): every emitted row has a
non-null Date and a non-null value in every canonical field present in the
input after the AdjustedClose-from-Close synthesis — rows with a missing
value in any kept field are dropped, not defaulted.  The hypotheses of the
general part pin the index name to a `Date`-like name that is not itself an
OHLCV field name, as produced by the provider.  The remaining conjuncts
settle the claim's example: `exLow` holds one fully populated date row and
one row missing Low, and the output contains only the complete row (with
AdjustedClose synthesized from Close and no null field). -/
theorem normalize_no_null_in_kept :
    (∀ (α : Type) (le : α → α → Bool) (df : PFrame α),
      (pyLower df.indexName = sDateLower → df.indexName = sDate) →
      df.indexName ∉ keepCandidates →
      ∀ r ∈ (normalize_ohlcv le df).rows,
        (cellAt COLS r sDate).isSome = true ∧
        ∀ c ∈ keepOf (addAdjClose df), (cellAt COLS r c).isSome = true) ∧
    exLow.rows.length = 2 ∧
    (∃ rbad ∈ exLow.rows, rbad.2.all Option.isSome = false) ∧
    (normalize_ohlcv leInt exLow).rows =
      [[some 1, some 10, some 11, some 9, some 10, some 10, some 5]] := by
  refine ⟨?_, rfl, ?_, rfl⟩
  · intro α le df h1 h2 r hr
    obtain ⟨r1, _, hall, hdate, hcell⟩ := normalize_row_structure le df h1 h2 r hr
    refine ⟨by rw [hdate]; rfl, ?_⟩
    intro c hc
    rw [hcell c hc]
    exact List.all_eq_true.mp hall _ (List.mem_map_of_mem _ hc)
  · exact ⟨(2, [some 10, some 11, none, some 10, some 5]), by decide, rfl⟩

/-- Witness for C1 (amended) on `exC1` (its kept fields include Open). -/
theorem normalize_no_null_in_kept_witness :
    (cellAt COLS [some (1 : Int), some 10, some 11, some 9, some 10, some 10, none]
      sDate).isSome = true ∧
    (cellAt COLS [some (1 : Int), some 10, some 11, some 9, some 10, some 10, none]
      sOpen).isSome = true := by
  have h := normalize_no_null_in_kept.1 Int leInt exC1 (fun _ => rfl) (by decide)
    [some 1, some 10, some 11, some 9, some 10, some 10, none] (by decide)
  exact ⟨h.1, h.2 sOpen (by decide)⟩

/-- Claim C7: when the input series has a Close field but no AdjustedClose
field, every emitted row carries AdjustedClose equal to Close (the column
is synthesized by copying Close before row filtering). -/
theorem normalize_synthesizes_adj_close {α : Type} (le : α → α → Bool) (df : PFrame α)
    (hwf : ∀ r ∈ df.rows, r.2.length = df.colNames.length)
    (hac : sAdjClose ∉ df.colNames) (hcl : sClose ∈ df.colNames)
    (h1 : pyLower df.indexName = sDateLower → df.indexName = sDate)
    (h2 : df.indexName ∉ keepCandidates) :
    ∀ r ∈ (normalize_ohlcv le df).rows,
      cellAt COLS r sAdjClose = cellAt COLS r sClose := by
  intro r hr
  obtain ⟨r1, hr1, _, _, hcell⟩ := normalize_row_structure le df h1 h2 r hr
  have hf1 : addAdjClose df = ⟨df.indexName, df.colNames ++ [sAdjClose],
      df.rows.map (fun r => (r.1, r.2 ++ [cellAt df.colNames r.2 sClose]))⟩ := by
    rw [addAdjClose, if_pos ⟨hac, hcl⟩]
  have hACmem : sAdjClose ∈ (addAdjClose df).colNames := by
    rw [hf1]; exact List.mem_append_right _ (List.mem_singleton_self _)
  have hCmem : sClose ∈ (addAdjClose df).colNames := by
    rw [hf1]; exact List.mem_append_left _ hcl
  have hACk : sAdjClose ∈ keepOf (addAdjClose df) :=
    List.mem_filter.mpr ⟨by decide, decide_eq_true hACmem⟩
  have hCk : sClose ∈ keepOf (addAdjClose df) :=
    List.mem_filter.mpr ⟨by decide, decide_eq_true hCmem⟩
  rw [hcell _ hACk, hcell _ hCk]
  rw [hf1] at hr1 ⊢
  dsimp only at hr1 ⊢
  obtain ⟨r0, hr0, heq⟩ := List.mem_map.mp hr1
  rw [← heq]
  dsimp only
  have hlen : r0.2.length = df.colNames.length := hwf r0 hr0
  rw [cellAt_append_self df.colNames r0.2 sAdjClose _ hac hlen,
      cellAt_append_of_mem df.colNames [sAdjClose] r0.2 _ sClose hcl hlen]

/-- Witness for C7 on the example row of the claim
(`Open 10, High 11, Low 9, Close 10.5, Volume 1000`, `D = 0`). -/
theorem normalize_synthesizes_adj_close_witness :
    normalize_ohlcv leRat exC7 =
      ⟨COLS, [[some (0 : ℚ), some 10, some 11, some 9, some (21/2), some (21/2), some 1000]]⟩ ∧
    cellAt COLS [some (0 : ℚ), some 10, some 11, some 9, some (21/2), some (21/2), some 1000]
        sAdjClose =
      cellAt COLS [some (0 : ℚ), some 10, some 11, some 9, some (21/2), some (21/2), some 1000]
        sClose := by
  refine ⟨rfl, ?_⟩
  have hwf : ∀ r ∈ exC7.rows, r.2.length = exC7.colNames.length := by
    intro r hr
    rcases List.mem_singleton.mp hr with rfl
    rfl
  exact normalize_synthesizes_adj_close leRat exC7 hwf (by decide) (by decide)
    (fun _ => rfl) (by decide)
    [some (0 : ℚ), some 10, some 11, some 9, some (21/2), some (21/2), some 1000]
    (List.mem_singleton_self _)

theorem filterMap_ext {α β : Type} (l : List α) (f g : α → Option β)
    (h : ∀ a ∈ l, f a = g a) : l.filterMap f = l.filterMap g := by
  induction l with
  | nil => rfl
  | cons a as ih =>
    rw [List.filterMap_cons, List.filterMap_cons, h a (List.mem_cons_self _ _),
        ih (fun x hx => h x (List.mem_cons_of_mem _ hx))]

theorem filterMap_map_comp {α β γ : Type} (l : List α) (g : α → β) (f : β → Option γ) :
    (l.map g).filterMap f = l.filterMap (fun a => f (g a)) := by
  induction l with
  | nil => rfl
  | cons a as ih => rw [List.map_cons, List.filterMap_cons, List.filterMap_cons, ih]

theorem map_ext_id {β : Type} (l : List β) (f : β → β) (h : ∀ a ∈ l, f a = a) :
    l.map f = l := by
  induction l with
  | nil => rfl
  | cons a as ih =>
    rw [List.map_cons, h a (List.mem_cons_self _ _),
        ih (fun x hx => h x (List.mem_cons_of_mem _ hx))]

theorem filterMap_if_eq_filter {β : Type} (q : β → Prop) [DecidablePred q] (l : List β) :
    l.filterMap (fun o => if q o then none else some o) = l.filter (fun o => decide (¬ q o)) := by
  induction l with
  | nil => rfl
  | cons a as ih =>
    by_cases hc : q a
    · simp [List.filterMap_cons, List.filter_cons, hc, ih]
    · simp [List.filterMap_cons, List.filter_cons, hc, ih]

theorem runLoop_spec {α : Type} (data : Option (BulkDF α)) (le : α → α → Bool) :
    ∀ (pairs : List (Str × Str)) (acc : RunResult α),
      runLoop data le pairs acc =
        ⟨acc.sheets ++ pairs.filterMap (fun p => (processPair data le p).1),
         acc.summary ++ pairs.map (fun p => (processPair data le p).2.1),
         acc.skipped ++ pairs.filterMap (fun p => (processPair data le p).2.2)⟩ := by
  intro pairs
  induction pairs with
  | nil => intro acc; simp [runLoop]
  | cons p ps ih =>
    intro acc
    have hstep : runLoop data le (p :: ps) acc = runLoop data le ps
        ⟨acc.sheets ++ (processPair data le p).1.toList,
         acc.summary ++ [(processPair data le p).2.1],
         acc.skipped ++ (processPair data le p).2.2.toList⟩ := rfl
    rw [hstep, ih]
    cases h1 : (processPair data le p).1 <;> cases h2 : (processPair data le p).2.2 <;>
      simp [h1, h2, List.filterMap_cons, List.append_assoc]

theorem processPair_fields {α : Type} (data : Option (BulkDF α)) (le : α → α → Bool)
    (p : Str × Str) :
    (processPair data le p).2.1.original_ticker = p.1 ∧
    (processPair data le p).2.1.yf_symbol = p.2 ∧
    (processPair data le p).2.1.note = noteOf (classify data le p.2) ∧
    (processPair data le p).2.2 =
      (if classify data le p.2 = Outcome.success then none else some p.2) := by
  unfold processPair classify
  cases hs : _slice_ticker_from_download data p.2 with
  | none => simp [noteOf]
  | some df_t =>
    by_cases he : df_t.isEmpty = true
    · simp [he, noteOf]
    · by_cases hn : (normalize_ohlcv le df_t).rows.isEmpty = true
      · simp [he, hn, noteOf]
      · simp [he, hn, noteOf]

/-- Claim C2: the skip list returned by the orchestrator is exactly the
sub-list (in input order) of tickers whose outcome is NoData or
EmptyAfterNormalization; no other entries appear. -/
theorem skip_list_exact {α : Type} (raw : Str) (data : Option (BulkDF α)) (le : α → α → Bool)
    (tickers : List Str) (res : RunResult α)
    (ht : get_egx_tickers raw = .ok tickers)
    (hres : download_and_write_excel raw data le = .ok res) :
    res.skipped = tickers.filter (fun o => decide (classify data le o ≠ Outcome.success)) := by
  simp only [download_and_write_excel, ht] at hres
  by_cases hemp : (tickers.map (fun o => (o, to_yf_symbol o))).map Prod.snd = []
  · rw [if_pos hemp] at hres; cases hres
  · rw [if_neg hemp] at hres
    cases hres
    rw [runLoop_spec]
    dsimp only
    rw [List.nil_append, filterMap_map_comp]
    have hfun : ∀ o ∈ tickers,
        (processPair data le (o, to_yf_symbol o)).2.2 =
          (fun o => if classify data le o = Outcome.success then none else some o) o := by
      intro o _
      rw [(processPair_fields data le (o, to_yf_symbol o)).2.2.2]
      rfl
    rw [filterMap_ext tickers _ _ hfun]
    exact filterMap_if_eq_filter (fun o => classify data le o = Outcome.success) tickers

/-- Witness for C2 on a run over `["AAA", "BBB"]` with an absent bulk
response: both tickers are skipped. -/
theorem skip_list_exact_witness :
    resW.skipped = tickersW.filter
      (fun o => decide (classify (none : Option (BulkDF Int)) leInt o ≠ Outcome.success)) :=
  skip_list_exact rawW none leInt tickersW resW rfl rfl

/-- Claim C5: the orchestrator emits exactly one summary row per input
ticker, in the original input ticker order, and each row's note reflects
the ticker's outcome (empty for Success, "No data", "Empty after
normalization"). -/
theorem summary_rows_exact {α : Type} (raw : Str) (data : Option (BulkDF α)) (le : α → α → Bool)
    (tickers : List Str) (res : RunResult α)
    (ht : get_egx_tickers raw = .ok tickers)
    (hres : download_and_write_excel raw data le = .ok res) :
    res.summary.map (fun r => r.original_ticker) = tickers ∧
    ∀ r ∈ res.summary, r.yf_symbol = to_yf_symbol r.original_ticker ∧
      r.note = noteOf (classify data le r.yf_symbol) := by
  simp only [download_and_write_excel, ht] at hres
  by_cases hemp : (tickers.map (fun o => (o, to_yf_symbol o))).map Prod.snd = []
  · rw [if_pos hemp] at hres; cases hres
  · rw [if_neg hemp] at hres
    cases hres
    rw [runLoop_spec]
    dsimp only
    rw [List.nil_append]
    constructor
    · rw [List.map_map, List.map_map]
      refine map_ext_id _ _ (fun o ho => ?_)
      exact (processPair_fields data le (o, to_yf_symbol o)).1
    · intro r hr
      obtain ⟨p, hp, heqr⟩ := List.mem_map.mp hr
      obtain ⟨o, _, heqp⟩ := List.mem_map.mp hp
      obtain ⟨hor, hyf, hnote, _⟩ := processPair_fields data le p
      rw [← heqr]
      refine ⟨?_, ?_⟩
      · rw [hyf, hor, ← heqp]
      · rw [hnote, hyf]

/-- Witness for C5 on the same run as the C2 witness. -/
theorem summary_rows_exact_witness :
    resW.summary.map (fun r => r.original_ticker) = tickersW ∧
    (⟨"AAA".data, "AAA".data, 0, none, none, sNoData⟩ : SummaryRow Int).yf_symbol =
      to_yf_symbol ((⟨"AAA".data, "AAA".data, 0, none, none, sNoData⟩ : SummaryRow Int).original_ticker) ∧
    (⟨"AAA".data, "AAA".data, 0, none, none, sNoData⟩ : SummaryRow Int).note =
      noteOf (classify (none : Option (BulkDF Int)) leInt
        ((⟨"AAA".data, "AAA".data, 0, none, none, sNoData⟩ : SummaryRow Int).yf_symbol)) := by
  have h := summary_rows_exact rawW none leInt tickersW resW rfl rfl
  exact ⟨h.1, h.2 ⟨"AAA".data, "AAA".data, 0, none, none, sNoData⟩ (by decide)⟩
